import Mathlib

/-!
Formal model of the core of an AI mind-mapping editor (a TypeScript/React
application). The model covers the node tree data structure, the pure tree
utilities (find, recursive update, recursive delete), the history-backed
reducer with undo/redo, the bidirectional conversion between the internal
node representation and the AI service node shape, and the retry control
flow of the AI service wrappers. Machine-level JavaScript details that the
modelled functions observe (array index reads returning `undefined` out of
bounds, truthiness of optional fields, `slice` end bounds) are modelled
explicitly; `undefined`-producing reads are modelled as `Option`.
-/

/-- Enum `MindMapNodeType` from `types.ts`. -/
inductive MindMapNodeType : Type where
  | ROOT
  | MAIN_TOPIC
  | SUB_TOPIC
  | DETAIL
  deriving DecidableEq, Repr

/-- The `status` variant of a node (`task | flashcard | summary`). -/
inductive NodeStatus : Type where
  | task
  | flashcard
  | summary
  deriving DecidableEq, Repr

/-- The `flashcard` metadata entry `{front, back}`. -/
structure Flashcard : Type where
  front : String
  back : String
  deriving DecidableEq, Repr

/-- The `task` metadata entry `{description, completed, dueDate?}`. -/
structure TaskMeta : Type where
  description : String
  completed : Bool
  dueDate : Option String
  deriving DecidableEq, Repr

/-- The `metadata` bag of a node. In TypeScript every field is optional;
`none` models an absent key. A node whose whole `metadata` object is absent
is modelled by the all-`none` bag, which is observationally equivalent for
every operation in this code base (all reads use optional chaining and all
writes spread the old bag). -/
structure NodeMetadata : Type where
  pros : Option (List String)
  cons : Option (List String)
  questions : Option (List String)
  flashcard : Option Flashcard
  summary : Option String
  task : Option TaskMeta
  deriving DecidableEq, Repr

/-- The empty metadata bag (`{}` or an absent `metadata` key). -/
def NodeMetadata.empty : NodeMetadata :=
  { pros := none, cons := none, questions := none,
    flashcard := none, summary := none, task := none }

/-- Interface `MindMapNode` from `types.ts`: id, text, children, parentId,
isExpanded, type, tags, status?, metadata?. The children list makes this a
nested inductive (a rose tree). -/
inductive MindMapNode : Type where
  | mk (id : String) (text : String) (children : List MindMapNode)
      (parentId : Option String) (isExpanded : Bool)
      (type : MindMapNodeType) (tags : List String)
      (status : Option NodeStatus) (metadata : NodeMetadata)
  deriving Repr

def MindMapNode.id : MindMapNode → String
  | .mk i _ _ _ _ _ _ _ _ => i

def MindMapNode.text : MindMapNode → String
  | .mk _ t _ _ _ _ _ _ _ => t

def MindMapNode.children : MindMapNode → List MindMapNode
  | .mk _ _ c _ _ _ _ _ _ => c

def MindMapNode.parentId : MindMapNode → Option String
  | .mk _ _ _ p _ _ _ _ _ => p

def MindMapNode.isExpanded : MindMapNode → Bool
  | .mk _ _ _ _ e _ _ _ _ => e

def MindMapNode.type : MindMapNode → MindMapNodeType
  | .mk _ _ _ _ _ ty _ _ _ => ty

def MindMapNode.tags : MindMapNode → List String
  | .mk _ _ _ _ _ _ tg _ _ => tg

def MindMapNode.status : MindMapNode → Option NodeStatus
  | .mk _ _ _ _ _ _ _ st _ => st

def MindMapNode.metadata : MindMapNode → NodeMetadata
  | .mk _ _ _ _ _ _ _ _ m => m

/-- Replace the children list, keeping every other field. This models the
JavaScript spread `{...node, children: ...}`. -/
def MindMapNode.withChildren : MindMapNode → List MindMapNode → MindMapNode
  | .mk i t _ p e ty tg st m, c => .mk i t c p e ty tg st m

/-- A node with its children removed; used to state which per-node content
an operation preserves, independently of the subtree below the node. -/
def MindMapNode.strip (n : MindMapNode) : MindMapNode :=
  n.withChildren []

/-- Interface `AIMapNode` from `types.ts`: `title`, optional `subtopics`,
optional `pros`/`cons`/`questions` string arrays. -/
inductive AIMapNode : Type where
  | mk (title : String) (subtopics : Option (List AIMapNode))
      (pros : Option (List String)) (cons : Option (List String))
      (questions : Option (List String))
  deriving Repr

def AIMapNode.title : AIMapNode → String
  | .mk t _ _ _ _ => t

def AIMapNode.subtopics : AIMapNode → Option (List AIMapNode)
  | .mk _ s _ _ _ => s

def AIMapNode.pros : AIMapNode → Option (List String)
  | .mk _ _ p _ _ => p

def AIMapNode.cons : AIMapNode → Option (List String)
  | .mk _ _ _ c _ => c

def AIMapNode.questions : AIMapNode → Option (List String)
  | .mk _ _ _ _ q => q

/-- Interface `AIMindMapOutput` from `types.ts`. -/
structure AIMindMapOutput : Type where
  map : List AIMapNode

/-! Tree utilities from the application module (`findNodeById`,
`updateNodeRecursive`, `deleteNodeRecursive`). Each is a mutual pair over a
forest and a single node because the children list is nested. -/

mutual

/-- Source `findNodeById`: depth-first search, first match wins; for each
node in order it first tests the node itself, then searches its children,
then moves to the next sibling. -/
def findNodeById (nodes : List MindMapNode) (id : String) : Option MindMapNode :=
  match nodes with
  | [] => none
  | n :: rest =>
    match findNodeInNode n id with
    | some found => some found
    | none => findNodeById rest id

/-- Search of a single node and its subtree, in the same order as the
`for` loop body of `findNodeById`. -/
def findNodeInNode (n : MindMapNode) (id : String) : Option MindMapNode :=
  match n with
  | .mk i _ c _ _ _ _ _ _ =>
    if i = id then some n else findNodeById c id

end

mutual

/-- Source `updateNodeRecursive`: rebuild the forest; the node whose id
matches `targetId` is replaced by `updateFn` of a copy of it (its children
are not traversed further, matching the source which returns the updated
copy immediately); every other node is copied with recursively updated
children. -/
def updateNodeRecursive (nodes : List MindMapNode) (targetId : String)
    (updateFn : MindMapNode → MindMapNode) : List MindMapNode :=
  match nodes with
  | [] => []
  | n :: rest =>
    updateOneNode n targetId updateFn :: updateNodeRecursive rest targetId updateFn

/-- Body of the `map` callback in `updateNodeRecursive`. -/
def updateOneNode (n : MindMapNode) (targetId : String)
    (updateFn : MindMapNode → MindMapNode) : MindMapNode :=
  match n with
  | .mk i t c p e ty tg st m =>
    if i = targetId then updateFn n
    else .mk i t (updateNodeRecursive c targetId updateFn) p e ty tg st m

end

mutual

/-- Source `deleteNodeRecursive`: filter out every node whose id matches
`targetId` at the current level, then recurse into the children of the
survivors. Dropping a matching node drops its entire subtree. -/
def deleteNodeRecursive (nodes : List MindMapNode) (targetId : String) :
    List MindMapNode :=
  match nodes with
  | [] => []
  | n :: rest =>
    if n.id = targetId then deleteNodeRecursive rest targetId
    else deleteOneNode n targetId :: deleteNodeRecursive rest targetId

/-- Body of the `map` callback in `deleteNodeRecursive` (a surviving node
keeps its fields and gets recursively filtered children). -/
def deleteOneNode (n : MindMapNode) (targetId : String) : MindMapNode :=
  match n with
  | .mk i t c p e ty tg st m =>
    .mk i t (deleteNodeRecursive c targetId) p e ty tg st m

end

/-! Observation helpers used to state the claims: the preorder listing of
per-node content (children stripped), and the listing of all ids. -/

mutual

/-- Preorder traversal of a forest, listing every node with its children
stripped. Two forests with equal flattenings have the same nodes with the
same per-node content in the same relative order. -/
def flattenForest (nodes : List MindMapNode) : List MindMapNode :=
  match nodes with
  | [] => []
  | n :: rest => flattenNode n ++ flattenForest rest

/-- Preorder traversal of one subtree. -/
def flattenNode (n : MindMapNode) : List MindMapNode :=
  match n with
  | .mk i t c p e ty tg st m =>
    MindMapNode.mk i t [] p e ty tg st m :: flattenForest c

end

/-- All ids occurring in a forest, in preorder. -/
def forestIds (nodes : List MindMapNode) : List String :=
  (flattenForest nodes).map MindMapNode.id

/-- All ids occurring in one subtree (the id of the node itself and of all
of its descendants), in preorder. -/
def nodeIds (n : MindMapNode) : List String :=
  (flattenNode n).map MindMapNode.id

/-- Projection of a forest to its (id, type) pairs in preorder; two forests
with the same projection assign the same type to the same nodes. -/
def forestIdTypes (nodes : List MindMapNode) : List (String × MindMapNodeType) :=
  (flattenForest nodes).map fun m => (m.id, m.type)

/-! Conversion helpers between the AI shape and the internal node shape.
The source generates a fresh uuid for every imported node; the model
threads an explicit counter through a caller-supplied id supply `fresh`,
consumed in the same order as the uuid calls in the source (each node
before its children, children left to right). -/

/-- Depth-to-type rule from `convertAIMapNodeToMindMapNode` in the source:
level 0 gives MAIN_TOPIC, level 1 gives SUB_TOPIC, deeper levels DETAIL. -/
def levelNodeType (level : Nat) : MindMapNodeType :=
  if level = 0 then .MAIN_TOPIC
  else if level = 1 then .SUB_TOPIC
  else .DETAIL

mutual

/-- Source `convertAIMapNodeToMindMapNode`: build a node with a fresh id,
text from `title`, `isExpanded` true, empty tags, type from the level;
fold `pros` and `cons` into metadata only when both are present (the
source guard `aiNode.pros && aiNode.cons`; a present array, even empty, is
truthy); fold `questions` when present; convert `subtopics` (absent
treated as empty) at level+1 with this node as parent. Returns the node
and the next unused counter value. -/
def convertAIMapNodeToMindMapNode (fresh : Nat → String) (aiNode : AIMapNode)
    (parentId : Option String) (level : Nat) (ctr : Nat) : MindMapNode × Nat :=
  match aiNode with
  | .mk title subtopics pros cons questions =>
    let myId := fresh ctr
    let md1 := if pros.isSome && cons.isSome then
        { NodeMetadata.empty with pros := pros, cons := cons }
      else NodeMetadata.empty
    let md2 := if questions.isSome then { md1 with questions := questions } else md1
    let converted := convertAIMapSubtopics fresh subtopics (some myId) (level + 1) (ctr + 1)
    (.mk myId title converted.1 parentId true (levelNodeType level) [] none md2,
      converted.2)

/-- The `aiNode.subtopics?.map(...) || []` step: an absent subtopics array
converts to no children. -/
def convertAIMapSubtopics (fresh : Nat → String) (subs : Option (List AIMapNode))
    (parentId : Option String) (level : Nat) (ctr : Nat) : List MindMapNode × Nat :=
  match subs with
  | none => ([], ctr)
  | some l => convertAIMapList fresh l parentId level ctr

/-- Conversion of a list of AI nodes in order, threading the id counter. -/
def convertAIMapList (fresh : Nat → String) (l : List AIMapNode)
    (parentId : Option String) (level : Nat) (ctr : Nat) : List MindMapNode × Nat :=
  match l with
  | [] => ([], ctr)
  | x :: rest =>
    let first := convertAIMapNodeToMindMapNode fresh x parentId level ctr
    let others := convertAIMapList fresh rest parentId level first.2
    (first.1 :: others.1, others.2)

end

mutual

/-- Source `convertMindMapNodeToAIMapNode`: title from text, subtopics
always present (children converted in order); `pros` and `cons` are both
copied from metadata when either is present (source guard
`node.metadata?.pros || node.metadata?.cons`), otherwise both absent;
`questions` copied exactly when present. -/
def convertMindMapNodeToAIMapNode (node : MindMapNode) : AIMapNode :=
  match node with
  | .mk _ t c _ _ _ _ _ m =>
    .mk t (some (convertMindMapList c))
      (if m.pros.isSome || m.cons.isSome then m.pros else none)
      (if m.pros.isSome || m.cons.isSome then m.cons else none)
      m.questions

/-- Conversion of a children list in order. -/
def convertMindMapList (nodes : List MindMapNode) : List AIMapNode :=
  match nodes with
  | [] => []
  | n :: rest => convertMindMapNodeToAIMapNode n :: convertMindMapList rest

end

mutual

/-- Modelled from the spec round-trip sentence, for comparison with the
composition of the two converters: the transform that the code actually
applies to an AI tree on Import followed by Export. It keeps `title` and
`questions` everywhere, keeps `pros` and `cons` exactly when both are
present on the node (dropping both otherwise), and normalizes an absent
subtopics array to an empty one. -/
def roundTripSpecNode (x : AIMapNode) : AIMapNode :=
  match x with
  | .mk title subs pros cons questions =>
    .mk title (some (roundTripSpecSubs subs))
      (if pros.isSome && cons.isSome then pros else none)
      (if pros.isSome && cons.isSome then cons else none)
      questions

/-- Round-trip transform of an optional subtopics field. -/
def roundTripSpecSubs (subs : Option (List AIMapNode)) : List AIMapNode :=
  match subs with
  | none => []
  | some l => roundTripSpecList l

/-- Round-trip transform of a list of AI nodes. -/
def roundTripSpecList (l : List AIMapNode) : List AIMapNode :=
  match l with
  | [] => []
  | x :: rest => roundTripSpecNode x :: roundTripSpecList rest

end

/-! The history-backed state store (`mindMapReducer` in the source). -/

/-- Store state: current forest, history of snapshots, pointer. The
pointer is a JavaScript number that starts at -1, so it is modelled as an
integer. -/
structure MindMapState : Type where
  nodes : List MindMapNode
  history : List (List MindMapNode)
  historyPointer : Int
  deriving Repr

/-- JavaScript array read `l[i]`: `undefined` (modelled `none`) when the
index is negative or past the end. -/
def jsIndex {α : Type} (l : List α) (i : Int) : Option α :=
  if i < 0 then none else l[i.toNat]?

/-- JavaScript `l.slice(0, e)`: a negative end counts from the end of the
array, and the result is clamped to the available elements. -/
def jsSlice {α : Type} (l : List α) (e : Int) : List α :=
  if 0 ≤ e then l.take e.toNat else l.take ((l.length : Int) + e).toNat

/-- The action type of the reducer. The metadata payload of
`updateNodeMetadata` is a partial bag: a `some` field is a key present in
the patch, a `none` field is an absent key. -/
inductive MindMapAction : Type where
  | setNodes (payload : List MindMapNode)
  | addNode (parentId : Option String) (newNode : MindMapNode)
  | updateNodeText (nodeId : String) (newText : String)
  | deleteNode (nodeId : String)
  | toggleExpand (nodeId : String)
  | updateNodeMetadata (nodeId : String) (metadata : NodeMetadata)
      (status : Option NodeStatus)
  | undo
  | redo

/-- Whether an action is one of the six tree-mutating actions (everything
except undo and redo). -/
def MindMapAction.isMutating : MindMapAction → Bool
  | .undo => false
  | .redo => false
  | _ => true

/-- The snapshot step shared verbatim by every mutating case of the
reducer: truncate the history after the pointer
(`history.slice(0, historyPointer + 1)`), append the new forest, point at
the last entry, and make the new forest current. -/
def pushSnapshot (state : MindMapState) (newNodes : List MindMapNode) :
    MindMapState :=
  let newHistory := jsSlice state.history (state.historyPointer + 1) ++ [newNodes]
  { nodes := newNodes, history := newHistory,
    historyPointer := (newHistory.length : Int) - 1 }

/-- The spread `{...node.metadata, ...patch}`: keys present in the patch
override, absent keys keep the old value. -/
def mergeMetadata (old patch : NodeMetadata) : NodeMetadata :=
  { pros := match patch.pros with | some v => some v | none => old.pros,
    cons := match patch.cons with | some v => some v | none => old.cons,
    questions := match patch.questions with | some v => some v | none => old.questions,
    flashcard := match patch.flashcard with | some v => some v | none => old.flashcard,
    summary := match patch.summary with | some v => some v | none => old.summary,
    task := match patch.task with | some v => some v | none => old.task }

/-- Mutator of the UPDATE_NODE_TEXT case: `node.text = newText`. -/
def setNodeText (newText : String) (n : MindMapNode) : MindMapNode :=
  match n with
  | .mk i _ c p e ty tg st m => .mk i newText c p e ty tg st m

/-- Mutator of the TOGGLE_EXPAND case: `node.isExpanded = !node.isExpanded`. -/
def toggleNodeExpanded (n : MindMapNode) : MindMapNode :=
  match n with
  | .mk i t c p e ty tg st m => .mk i t c p (!e) ty tg st m

/-- Mutator of the UPDATE_NODE_METADATA case: merge the patch into the
metadata bag and set the status when one is provided. -/
def applyMetadataPatch (patch : NodeMetadata) (newStatus : Option NodeStatus)
    (n : MindMapNode) : MindMapNode :=
  match n with
  | .mk i t c p e ty tg st m =>
    .mk i t c p e ty tg
      (match newStatus with | some s => some s | none => st)
      (mergeMetadata m patch)

mutual

/-- The ADD_NODE mutation on a forest when a parent id is given: the
source deep-copies the forest, locates the parent with `findNodeById`
(first match in depth-first order) and mutates that one node in place,
appending the new node to its children and forcing `isExpanded` to true.
The pair returns the rebuilt forest and whether the parent was found; when
it is not found the forest is returned unchanged. -/
def addChildInForest (nodes : List MindMapNode) (parentId : String)
    (newNode : MindMapNode) : List MindMapNode × Bool :=
  match nodes with
  | [] => ([], false)
  | n :: rest =>
    match addChildInNode n parentId newNode with
    | (n2, true) => (n2 :: rest, true)
    | (_, false) =>
      let others := addChildInForest rest parentId newNode
      (n :: others.1, others.2)

/-- The ADD_NODE mutation restricted to one subtree, trying the node
itself before its children, in `findNodeById` order. -/
def addChildInNode (n : MindMapNode) (parentId : String)
    (newNode : MindMapNode) : MindMapNode × Bool :=
  match n with
  | .mk i t c p e ty tg st m =>
    if i = parentId then (.mk i t (c ++ [newNode]) p true ty tg st m, true)
    else
      let inner := addChildInForest c parentId newNode
      (.mk i t inner.1 p e ty tg st m, inner.2)

end

/-- Source `mindMapReducer`. Undo and redo clamp the pointer and then read
`history[pointer]`; when that read is out of bounds the JavaScript value
assigned to `nodes` is `undefined`, which is not a forest — the model
returns `none` for exactly those ill-formed outcomes. Every mutating case
returns `some` of a snapshot push. The deep copy in the ADD_NODE case is
the identity on immutable values. -/
def mindMapReducer (state : MindMapState) (action : MindMapAction) :
    Option MindMapState :=
  match action with
  | .setNodes payload => some (pushSnapshot state payload)
  | .addNode parentId newNode =>
    let newNodes :=
      match parentId with
      | none => state.nodes ++ [newNode]
      | some pid => (addChildInForest state.nodes pid newNode).1
    some (pushSnapshot state newNodes)
  | .updateNodeText nodeId newText =>
    some (pushSnapshot state
      (updateNodeRecursive state.nodes nodeId (setNodeText newText)))
  | .deleteNode nodeId =>
    some (pushSnapshot state (deleteNodeRecursive state.nodes nodeId))
  | .toggleExpand nodeId =>
    some (pushSnapshot state
      (updateNodeRecursive state.nodes nodeId toggleNodeExpanded))
  | .updateNodeMetadata nodeId md st =>
    some (pushSnapshot state
      (updateNodeRecursive state.nodes nodeId (applyMetadataPatch md st)))
  | .undo =>
    let p := max 0 (state.historyPointer - 1)
    match jsIndex state.history p with
    | some f => some { state with nodes := f, historyPointer := p }
    | none => none
  | .redo =>
    let p := min ((state.history.length : Int) - 1) (state.historyPointer + 1)
    match jsIndex state.history p with
    | some f => some { state with nodes := f, historyPointer := p }
    | none => none

/-- The initial `useReducer` state: empty forest, empty history, pointer
-1. -/
def initialMindMapState : MindMapState :=
  { nodes := [], history := [], historyPointer := -1 }

/-! The app-level handlers the claims mention. -/

/-- The node literal built by `handleAddChild` in the source. The uuid is
a parameter. The source object has no `metadata` key (the empty bag). The
`type` is the constant `MindMapNodeType.DETAIL` with the source comment
"Default to DETAIL". -/
def handleAddChildNode (newId : String) (parentId : String) : MindMapNode :=
  .mk newId "New Idea" [] (some parentId) true .DETAIL [] none NodeMetadata.empty

/-- Source `handleAddChild`: dispatch ADD_NODE with the fresh node and the
given parent id. -/
def handleAddChild (state : MindMapState) (newId : String) (parentId : String) :
    Option MindMapState :=
  mindMapReducer state (.addNode (some parentId) (handleAddChildNode newId parentId))

/-- The part of the editor session state the selection claims are about:
the store state plus the selected node reference owned by the session. -/
structure AppState : Type where
  mindMap : MindMapState
  selectedNode : Option MindMapNode

/-- Source `handleDeleteNode`: dispatch DELETE_NODE, then clear the
selection if and only if the optional chain `selectedNode?.id` equals the
deleted id (with no selection the comparison is false and the selection
stays `none`). -/
def handleDeleteNode (st : AppState) (nodeId : String) : Option AppState :=
  (mindMapReducer st.mindMap (.deleteNode nodeId)).map fun m =>
    { mindMap := m,
      selectedNode :=
        match st.selectedNode with
        | some s => if s.id = nodeId then none else st.selectedNode
        | none => st.selectedNode }

/-! Control-flow models of the forest-producing AI service wrappers in
`geminiService.ts`. The network transport and JSON text are abstracted: a
response is `some text` when `response.text` is present and non-empty
(truthy), `none` otherwise; `parse` models `JSON.parse` on a response
text, `none` when it throws. Each function returns the computed result
together with the number of `generateContent` calls it performs, so that
the presence or absence of the reformatting retry is observable. -/

/-- Source `generateMindMapStructure`: one call; if the text is missing
the result is null. If parsing the text fails, a second call re-prompts
the model to reformat its own output; a missing or unparseable second
response yields null. -/
def generateMindMapStructure (parse : String → Option AIMindMapOutput)
    (resp1 resp2 : Option String) : Option AIMindMapOutput × Nat :=
  match resp1 with
  | none => (none, 1)
  | some t =>
    match parse t with
    | some out => (some out, 1)
    | none =>
      match resp2 with
      | none => (none, 2)
      | some t2 => (parse t2, 2)

/-- Source `refineMindMapStructure`: one call; a missing text or a
`JSON.parse` throw (caught by the surrounding catch) yields null. There is
no second call. -/
def refineMindMapStructure (parse : String → Option AIMindMapOutput)
    (resp : Option String) : Option AIMindMapOutput × Nat :=
  match resp with
  | none => (none, 1)
  | some t => (parse t, 1)

/-- Source `mergeDuplicateIdeas`: same single-call shape as
`refineMindMapStructure`. -/
def mergeDuplicateIdeas (parse : String → Option AIMindMapOutput)
    (resp : Option String) : Option AIMindMapOutput × Nat :=
  match resp with
  | none => (none, 1)
  | some t => (parse t, 1)

/-- The in-place mutation that ADD_NODE performs on the found parent:
append the new node to its children and force `isExpanded` to true.
Phrased as a function so that the ADD_NODE behavior can be related to
`updateNodeRecursive` applied to it. -/
def appendChildExpand (newNode : MindMapNode) (t : MindMapNode) : MindMapNode :=
  match t with
  | .mk i tx c p _e ty tg st m => .mk i tx (c ++ [newNode]) p true ty tg st m

mutual

/-- Checks that every node of a forest sitting at the given depth carries
the type that the depth rule of `convertAIMapNodeToMindMapNode` dictates,
recursively for all depths below. -/
def typesFollowDepthForest (nodes : List MindMapNode) (level : Nat) : Bool :=
  match nodes with
  | [] => true
  | n :: rest => typesFollowDepthNode n level && typesFollowDepthForest rest level

/-- Checks the depth rule on one subtree rooted at the given depth. -/
def typesFollowDepthNode (n : MindMapNode) (level : Nat) : Bool :=
  match n with
  | .mk _ _ c _ _ ty _ _ _ =>
    (ty == levelNodeType level) && typesFollowDepthForest c (level + 1)

end

mutual

/-- Depth of the node with the given id in a forest: roots are at depth 0,
children one deeper. Returns the depth of the first occurrence in
depth-first order. -/
def depthInForest (nodes : List MindMapNode) (id : String) : Option Nat :=
  match nodes with
  | [] => none
  | n :: rest =>
    match depthInNode n id with
    | some d => some d
    | none => depthInForest rest id

/-- Depth of the node with the given id inside one subtree whose root is
at depth 0. -/
def depthInNode (n : MindMapNode) (id : String) : Option Nat :=
  match n with
  | .mk i _ c _ _ _ _ _ _ =>
    if i = id then some 0
    else (depthInForest c id).map fun d => d + 1

end

/-! Concrete sample data used to instantiate theorems with hypotheses on
explicit inputs. -/

/-- A sample leaf node with id `b`, a child of `sampleA`. -/
def sampleB : MindMapNode :=
  .mk "b" "B" [] (some "a") true .SUB_TOPIC [] none .empty

/-- A sample root node with id `a` and single child `sampleB`. -/
def sampleA : MindMapNode :=
  .mk "a" "A" [sampleB] none true .MAIN_TOPIC [] none .empty

/-- A sample store state holding the one-root forest `[sampleA]` with a
consistent one-snapshot history. -/
def sampleState : MindMapState :=
  { nodes := [sampleA], history := [[sampleA]], historyPointer := 0 }

/-- A sample store state with two snapshots and the pointer rewound to 0,
as reached after one Undo. -/
def sampleRewoundState : MindMapState :=
  { nodes := [sampleA], history := [[sampleA], []], historyPointer := 0 }

/-- A sample editor state with the root node a selected. -/
def sampleSelectedA : AppState :=
  { mindMap := sampleState, selectedNode := some sampleA }

/-- A sample editor state with the child node b selected. -/
def sampleSelectedB : AppState :=
  { mindMap := sampleState, selectedNode := some sampleB }

/-! Basic lemmas about the observation helpers. -/

theorem flattenNode_eq (n : MindMapNode) :
    flattenNode n = n.strip :: flattenForest n.children := by
  cases n
  rfl

theorem flattenForest_cons (n : MindMapNode) (rest : List MindMapNode) :
    flattenForest (n :: rest) = flattenNode n ++ flattenForest rest := rfl

theorem forestIds_nil : forestIds [] = [] := rfl

theorem forestIds_cons (n : MindMapNode) (rest : List MindMapNode) :
    forestIds (n :: rest) = nodeIds n ++ forestIds rest := by
  simp [forestIds, nodeIds, flattenForest_cons]

theorem nodeIds_eq (n : MindMapNode) :
    nodeIds n = n.id :: forestIds n.children := by
  cases n
  simp [nodeIds, forestIds, flattenNode, MindMapNode.id, MindMapNode.children]

theorem strip_id (n : MindMapNode) : n.strip.id = n.id := by
  cases n
  rfl

theorem mem_flattenNode_id {m n : MindMapNode} (h : m ∈ flattenNode n) :
    m.id ∈ nodeIds n := by
  exact List.mem_map_of_mem MindMapNode.id h

theorem mem_flattenForest_id {m : MindMapNode} {F : List MindMapNode}
    (h : m ∈ flattenForest F) : m.id ∈ forestIds F := by
  exact List.mem_map_of_mem MindMapNode.id h

/-! Characterizations of `findNodeById`. -/

mutual

theorem findNodeById_isSome_iff (F : List MindMapNode) (id : String) :
    (findNodeById F id).isSome = true ↔ id ∈ forestIds F := by
  match F with
  | [] => simp [findNodeById, forestIds, flattenForest]
  | n :: rest =>
    rw [forestIds_cons, List.mem_append]
    simp only [findNodeById]
    cases hn : findNodeInNode n id with
    | some t =>
      have hmem : id ∈ nodeIds n := (findNodeInNode_isSome_iff n id).mp (by rw [hn]; rfl)
      simp [hmem]
    | none =>
      have hmem : id ∉ nodeIds n := by
        intro hc
        have := (findNodeInNode_isSome_iff n id).mpr hc
        rw [hn] at this
        exact absurd this (by simp)
      have hrest := findNodeById_isSome_iff rest id
      cases hr : findNodeById rest id with
      | some u =>
        rw [hr] at hrest
        simp only [Option.isSome_some, true_iff] at hrest
        simp [hmem, hrest]
      | none =>
        rw [hr] at hrest
        simp only [Option.isSome_none, Bool.false_eq_true, false_iff] at hrest
        simp [hmem, hrest]

theorem findNodeInNode_isSome_iff (n : MindMapNode) (id : String) :
    (findNodeInNode n id).isSome = true ↔ id ∈ nodeIds n := by
  match n with
  | .mk i t c p e ty tg st m =>
    rw [nodeIds_eq]
    simp only [findNodeInNode, MindMapNode.id, MindMapNode.children, List.mem_cons]
    by_cases hi : i = id
    · simp [hi]
    · rw [if_neg hi]
      rw [findNodeById_isSome_iff c id]
      constructor
      · intro hm
        exact Or.inr hm
      · intro hm
        cases hm with
        | inl h => exact absurd h.symm hi
        | inr h => exact h

end

mutual

theorem findNodeById_some_facts (F : List MindMapNode) (id : String)
    (t : MindMapNode) (h : findNodeById F id = some t) :
    t.id = id ∧ nodeIds t ⊆ forestIds F := by
  match F with
  | [] => simp [findNodeById] at h
  | n :: rest =>
    simp only [findNodeById] at h
    cases hn : findNodeInNode n id with
    | some f =>
      rw [hn] at h
      have hf : f = t := by injection h
      subst hf
      have facts := findNodeInNode_some_facts n id f hn
      refine ⟨facts.1, ?_⟩
      rw [forestIds_cons]
      exact facts.2.trans (List.subset_append_left _ _)
    | none =>
      rw [hn] at h
      have facts := findNodeById_some_facts rest id t h
      refine ⟨facts.1, ?_⟩
      rw [forestIds_cons]
      exact facts.2.trans (List.subset_append_right _ _)

theorem findNodeInNode_some_facts (n : MindMapNode) (id : String)
    (t : MindMapNode) (h : findNodeInNode n id = some t) :
    t.id = id ∧ nodeIds t ⊆ nodeIds n := by
  match n with
  | .mk i tx c p e ty tg st m =>
    simp only [findNodeInNode] at h
    by_cases hi : i = id
    · rw [if_pos hi] at h
      have := h
      injection this with heq
      subst heq
      exact ⟨by rw [MindMapNode.id, hi], List.Subset.refl _⟩
    · rw [if_neg hi] at h
      have facts := findNodeById_some_facts c id t h
      have hsub : forestIds c ⊆ nodeIds (MindMapNode.mk i tx c p e ty tg st m) := by
        rw [nodeIds_eq]
        simp only [MindMapNode.children]
        exact List.subset_cons_self _ _
      exact ⟨facts.1, facts.2.trans hsub⟩

end

/-- An id that is nowhere in a forest cannot be found. -/
theorem findNodeById_eq_none_of_not_mem {F : List MindMapNode} {id : String}
    (h : id ∉ forestIds F) : findNodeById F id = none := by
  cases hf : findNodeById F id with
  | none => rfl
  | some t =>
    exact absurd ((findNodeById_isSome_iff F id).mp (by rw [hf]; rfl)) h

/-! Lookup misses are silent no-ops for every recursive tree operation. -/

mutual

theorem updateNodeRecursive_not_mem (F : List MindMapNode) (id : String)
    (f : MindMapNode → MindMapNode) (h : id ∉ forestIds F) :
    updateNodeRecursive F id f = F := by
  match F with
  | [] => rfl
  | n :: rest =>
    rw [forestIds_cons, List.mem_append] at h
    push_neg at h
    simp only [updateNodeRecursive]
    rw [updateOneNode_not_mem n id f h.1, updateNodeRecursive_not_mem rest id f h.2]

theorem updateOneNode_not_mem (n : MindMapNode) (id : String)
    (f : MindMapNode → MindMapNode) (h : id ∉ nodeIds n) :
    updateOneNode n id f = n := by
  match n with
  | .mk i t c p e ty tg st m =>
    rw [nodeIds_eq] at h
    simp only [MindMapNode.id, MindMapNode.children, List.mem_cons] at h
    push_neg at h
    simp only [updateOneNode]
    rw [if_neg (fun hc => h.1 hc.symm),
      updateNodeRecursive_not_mem c id f h.2]

end

mutual

theorem deleteNodeRecursive_not_mem (F : List MindMapNode) (id : String)
    (h : id ∉ forestIds F) : deleteNodeRecursive F id = F := by
  match F with
  | [] => rfl
  | n :: rest =>
    rw [forestIds_cons, List.mem_append] at h
    push_neg at h
    have hne : n.id ≠ id := by
      intro hc
      apply h.1
      rw [nodeIds_eq, ← hc]
      exact List.mem_cons_self _ _
    simp only [deleteNodeRecursive]
    rw [if_neg hne, deleteOneNode_not_mem n id h.1,
      deleteNodeRecursive_not_mem rest id h.2]

theorem deleteOneNode_not_mem (n : MindMapNode) (id : String)
    (h : id ∉ nodeIds n) : deleteOneNode n id = n := by
  match n with
  | .mk i t c p e ty tg st m =>
    rw [nodeIds_eq] at h
    simp only [MindMapNode.children, List.mem_cons] at h
    push_neg at h
    simp only [deleteOneNode]
    rw [deleteNodeRecursive_not_mem c id h.2]

end

mutual

theorem addChildInForest_not_mem (F : List MindMapNode) (pid : String)
    (x : MindMapNode) (h : pid ∉ forestIds F) :
    addChildInForest F pid x = (F, false) := by
  match F with
  | [] => rfl
  | n :: rest =>
    rw [forestIds_cons, List.mem_append] at h
    push_neg at h
    simp only [addChildInForest]
    rw [addChildInNode_not_mem n pid x h.1,
      addChildInForest_not_mem rest pid x h.2]

theorem addChildInNode_not_mem (n : MindMapNode) (pid : String)
    (x : MindMapNode) (h : pid ∉ nodeIds n) :
    addChildInNode n pid x = (n, false) := by
  match n with
  | .mk i t c p e ty tg st m =>
    rw [nodeIds_eq] at h
    simp only [MindMapNode.id, MindMapNode.children, List.mem_cons] at h
    push_neg at h
    simp only [addChildInNode]
    rw [if_neg (fun hc => h.1 hc.symm),
      addChildInForest_not_mem c pid x h.2]

end

/-! The ADD_NODE insertion: its found flag, and its agreement with
`updateNodeRecursive` applied to the append-and-expand mutation whenever
ids are unique. -/

mutual

theorem addChildInForest_found_iff (F : List MindMapNode) (pid : String)
    (x : MindMapNode) :
    (addChildInForest F pid x).2 = true ↔ pid ∈ forestIds F := by
  match F with
  | [] => simp [addChildInForest, forestIds, flattenForest]
  | n :: rest =>
    rw [forestIds_cons, List.mem_append]
    have hnode := addChildInNode_found_iff n pid x
    have hrest := addChildInForest_found_iff rest pid x
    simp only [addChildInForest]
    rcases haddn : addChildInNode n pid x with ⟨n2, flag⟩
    rw [haddn] at hnode
    cases flag with
    | true => simp_all
    | false => simp_all

theorem addChildInNode_found_iff (n : MindMapNode) (pid : String)
    (x : MindMapNode) :
    (addChildInNode n pid x).2 = true ↔ pid ∈ nodeIds n := by
  match n with
  | .mk i t c p e ty tg st m =>
    have hc := addChildInForest_found_iff c pid x
    rw [nodeIds_eq]
    simp only [MindMapNode.id, MindMapNode.children, List.mem_cons]
    simp only [addChildInNode]
    by_cases hi : i = pid
    · simp [hi]
    · rw [if_neg hi]
      simp only []
      rw [hc]
      constructor
      · exact fun h => Or.inr h
      · intro h
        cases h with
        | inl h => exact absurd h.symm hi
        | inr h => exact h

end

mutual

theorem addChildInForest_eq_update (F : List MindMapNode) (pid : String)
    (x : MindMapNode) (hnd : (forestIds F).Nodup) :
    (addChildInForest F pid x).1 =
      updateNodeRecursive F pid (appendChildExpand x) := by
  match F with
  | [] => rfl
  | n :: rest =>
    rw [forestIds_cons] at hnd
    rw [List.nodup_append] at hnd
    obtain ⟨hn1, hn2, hdisj⟩ := hnd
    have hnode := addChildInNode_eq_update n pid x hn1
    have hflag := addChildInNode_found_iff n pid x
    simp only [addChildInForest, updateNodeRecursive]
    rcases haddn : addChildInNode n pid x with ⟨n2, flag⟩
    rw [haddn] at hnode hflag
    cases flag with
    | true =>
      have hpid : pid ∈ nodeIds n := hflag.mp rfl
      have hnr : pid ∉ forestIds rest := fun hc => hdisj hpid hc
      simp only []
      rw [updateNodeRecursive_not_mem rest pid _ hnr]
      exact congrArg (fun z => z :: rest) hnode
    | false =>
      have hpid : pid ∉ nodeIds n := by
        intro hc
        exact absurd (hflag.mpr hc) (by simp)
      simp only []
      rw [updateOneNode_not_mem n pid _ hpid]
      exact congrArg (fun z => n :: z) (addChildInForest_eq_update rest pid x hn2)

theorem addChildInNode_eq_update (n : MindMapNode) (pid : String)
    (x : MindMapNode) (hnd : (nodeIds n).Nodup) :
    (addChildInNode n pid x).1 = updateOneNode n pid (appendChildExpand x) := by
  match n with
  | .mk i t c p e ty tg st m =>
    rw [nodeIds_eq] at hnd
    simp only [MindMapNode.children] at hnd
    have hc : (forestIds c).Nodup := hnd.of_cons
    simp only [addChildInNode, updateOneNode]
    by_cases hi : i = pid
    · rw [if_pos hi, if_pos hi]
      rfl
    · rw [if_neg hi, if_neg hi]
      simp only []
      exact congrArg (fun z => MindMapNode.mk i t z p e ty tg st m)
        (addChildInForest_eq_update c pid x hc)

end

/-! Small accessor-level equations. -/

theorem findNodeInNode_eq (n : MindMapNode) (id : String) :
    findNodeInNode n id =
      if n.id = id then some n else findNodeById n.children id := by
  cases n
  rfl

theorem flattenNode_deleteOneNode (n : MindMapNode) (id : String) :
    flattenNode (deleteOneNode n id) =
      n.strip :: flattenForest (deleteNodeRecursive n.children id) := by
  cases n
  rfl

/-! Delete removes exactly the subtree of the deleted node: on the
preorder flattening, deletion is filtering out the ids of that subtree,
which keeps the content and relative order of every other node. -/

mutual

theorem deleteNodeRecursive_flatten (F : List MindMapNode) (id : String)
    (t : MindMapNode) (hnd : (forestIds F).Nodup)
    (hf : findNodeById F id = some t) :
    flattenForest (deleteNodeRecursive F id) =
      (flattenForest F).filter (fun m => decide (m.id ∉ nodeIds t)) := by
  match F with
  | [] => simp [findNodeById] at hf
  | n :: rest =>
    rw [forestIds_cons, List.nodup_append] at hnd
    obtain ⟨hn1, hn2, hdisj⟩ := hnd
    simp only [findNodeById] at hf
    rw [flattenForest_cons, List.filter_append]
    by_cases hni : n.id = id
    · have hfn : findNodeInNode n id = some n := by
        rw [findNodeInNode_eq, if_pos hni]
      rw [hfn] at hf
      have ht : n = t := by injection hf
      subst ht
      have hidmem : id ∈ nodeIds n := by
        rw [nodeIds_eq, ← hni]
        exact List.mem_cons_self _ _
      have hnr : id ∉ forestIds rest := fun hc => hdisj hidmem hc
      simp only [deleteNodeRecursive]
      rw [if_pos hni, deleteNodeRecursive_not_mem rest id hnr]
      have h1 : (flattenNode n).filter (fun m => decide (m.id ∉ nodeIds n)) = [] := by
        rw [List.filter_eq_nil_iff]
        intro m hm
        simp [mem_flattenNode_id hm]
      have h2 : (flattenForest rest).filter
          (fun m => decide (m.id ∉ nodeIds n)) = flattenForest rest := by
        rw [List.filter_eq_self]
        intro m hm
        have hmr : m.id ∈ forestIds rest := mem_flattenForest_id hm
        simp only [decide_eq_true_iff]
        exact fun hc => hdisj hc hmr
      rw [h1, h2, List.nil_append]
    · have hstep : deleteNodeRecursive (n :: rest) id =
          deleteOneNode n id :: deleteNodeRecursive rest id := by
        simp only [deleteNodeRecursive]
        rw [if_neg hni]
      cases hfn : findNodeInNode n id with
      | some f =>
        rw [hfn] at hf
        have ht : f = t := by injection hf
        subst ht
        have hchild : findNodeById n.children id = some f := by
          rw [findNodeInNode_eq, if_neg hni] at hfn
          exact hfn
        have hfacts := findNodeById_some_facts n.children id f hchild
        have hsubn : nodeIds f ⊆ nodeIds n := by
          rw [nodeIds_eq n]
          exact hfacts.2.trans (List.subset_cons_self _ _)
        have hidc : id ∈ forestIds n.children := by
          apply hfacts.2
          rw [nodeIds_eq, hfacts.1]
          exact List.mem_cons_self _ _
        have hidrest : id ∉ forestIds rest := by
          intro hc
          apply hdisj ?_ hc
          rw [nodeIds_eq]
          exact List.mem_cons_of_mem _ hidc
        rw [hstep, flattenForest_cons]
        rw [deleteNodeRecursive_not_mem rest id hidrest]
        rw [deleteOneNode_flatten n id f hn1 hni hchild]
        have h2 : (flattenForest rest).filter
            (fun m => decide (m.id ∉ nodeIds f)) = flattenForest rest := by
          rw [List.filter_eq_self]
          intro m hm
          have hmr : m.id ∈ forestIds rest := mem_flattenForest_id hm
          simp only [decide_eq_true_iff]
          exact fun hc => hdisj (hsubn hc) hmr
        rw [h2]
      | none =>
        rw [hfn] at hf
        have hnotn : id ∉ nodeIds n := by
          intro hc
          have hs := (findNodeInNode_isSome_iff n id).mpr hc
          rw [hfn] at hs
          exact absurd hs (by simp)
        have hfacts := findNodeById_some_facts rest id t hf
        rw [hstep, flattenForest_cons]
        rw [deleteOneNode_not_mem n id hnotn]
        rw [deleteNodeRecursive_flatten rest id t hn2 hf]
        have h1 : (flattenNode n).filter
            (fun m => decide (m.id ∉ nodeIds t)) = flattenNode n := by
          rw [List.filter_eq_self]
          intro m hm
          have hmn : m.id ∈ nodeIds n := mem_flattenNode_id hm
          simp only [decide_eq_true_iff]
          exact fun hc => hdisj hmn (hfacts.2 hc)
        rw [h1]

theorem deleteOneNode_flatten (n : MindMapNode) (id : String) (t : MindMapNode)
    (hnd : (nodeIds n).Nodup) (hne : n.id ≠ id)
    (hchild : findNodeById n.children id = some t) :
    flattenNode (deleteOneNode n id) =
      (flattenNode n).filter (fun m => decide (m.id ∉ nodeIds t)) := by
  match n with
  | .mk i tx c p e ty tg st m =>
    have hch : (MindMapNode.mk i tx c p e ty tg st m).children = c := rfl
    rw [hch] at hchild
    rw [nodeIds_eq, hch] at hnd
    have hcnd : (forestIds c).Nodup := hnd.of_cons
    have hinotc : (MindMapNode.mk i tx c p e ty tg st m).id ∉ forestIds c :=
      (List.nodup_cons.mp hnd).1
    have hfacts := findNodeById_some_facts c id t hchild
    rw [flattenNode_deleteOneNode, hch]
    rw [deleteNodeRecursive_flatten c id t hcnd hchild]
    rw [flattenNode_eq]
    rw [List.filter_cons_of_pos]
    · rw [hch]
    · simp only [decide_eq_true_iff, strip_id]
      exact fun hc => hinotc (hfacts.2 hc)

end

/-! Facts about the JavaScript-style index read and the snapshot push. -/

theorem jsIndex_some_facts {α : Type} {l : List α} {i : Int} {a : α}
    (h : jsIndex l i = some a) :
    0 ≤ i ∧ i.toNat < l.length ∧ l[i.toNat]? = some a := by
  unfold jsIndex at h
  by_cases hi : i < 0
  · rw [if_pos hi] at h
    exact absurd h (by simp)
  · rw [if_neg hi] at h
    refine ⟨by omega, ?_, h⟩
    by_contra hc
    rw [List.getElem?_eq_none (by omega)] at h
    exact absurd h (by simp)

theorem jsIndex_nonneg {α : Type} (l : List α) (i : Int) (h : 0 ≤ i) :
    jsIndex l i = l[i.toNat]? := by
  unfold jsIndex
  rw [if_neg (by omega)]

theorem pushSnapshot_nodes (S : MindMapState) (n2 : List MindMapNode) :
    (pushSnapshot S n2).nodes = n2 := rfl

theorem pushSnapshot_history (S : MindMapState) (n2 : List MindMapNode)
    (hp : 0 ≤ S.historyPointer) :
    (pushSnapshot S n2).history =
      S.history.take (S.historyPointer.toNat + 1) ++ [n2] := by
  show jsSlice S.history (S.historyPointer + 1) ++ [n2] = _
  unfold jsSlice
  rw [if_pos (by omega)]
  have h2 : (S.historyPointer + 1).toNat = S.historyPointer.toNat + 1 := by omega
  rw [h2]

theorem pushSnapshot_historyPointer (S : MindMapState) (n2 : List MindMapNode) :
    (pushSnapshot S n2).historyPointer =
      ((pushSnapshot S n2).history.length : Int) - 1 := rfl

theorem pushSnapshot_history_length (S : MindMapState) (n2 : List MindMapNode)
    (hp : 0 ≤ S.historyPointer)
    (hlt : S.historyPointer.toNat < S.history.length) :
    (pushSnapshot S n2).history.length = S.historyPointer.toNat + 2 := by
  rw [pushSnapshot_history S n2 hp]
  rw [List.length_append, List.length_take]
  simp
  omega

/-- Undo right after a snapshot push lands on the snapshot that was
current before the push (the entry at the old pointer), with the pointer
back at its old value. -/
theorem undo_pushSnapshot (S : MindMapState) (n2 : List MindMapNode)
    (hwf : jsIndex S.history S.historyPointer = some S.nodes) :
    mindMapReducer (pushSnapshot S n2) .undo =
      some { nodes := S.nodes, history := (pushSnapshot S n2).history,
             historyPointer := S.historyPointer } := by
  obtain ⟨hp, hlt, hget⟩ := jsIndex_some_facts hwf
  have hlen := pushSnapshot_history_length S n2 hp hlt
  have hptr := pushSnapshot_historyPointer S n2
  simp only [mindMapReducer]
  have hmax : max 0 ((pushSnapshot S n2).historyPointer - 1) = S.historyPointer := by
    rw [hptr, hlen]
    omega
  rw [hmax]
  have hread : jsIndex (pushSnapshot S n2).history S.historyPointer =
      some S.nodes := by
    rw [jsIndex_nonneg _ _ hp, pushSnapshot_history S n2 hp]
    rw [List.getElem?_append, if_pos (by rw [List.length_take]; omega)]
    rw [List.getElem?_take, if_pos (by omega)]
    exact hget
  rw [hread]

/-- Redo right after that undo lands back on the pushed snapshot,
restoring the pushed state exactly. -/
theorem redo_after_undo_pushSnapshot (S : MindMapState) (n2 : List MindMapNode)
    (hwf : jsIndex S.history S.historyPointer = some S.nodes) :
    mindMapReducer
      { nodes := S.nodes, history := (pushSnapshot S n2).history,
        historyPointer := S.historyPointer } .redo = some (pushSnapshot S n2) := by
  obtain ⟨hp, hlt, hget⟩ := jsIndex_some_facts hwf
  have hlen := pushSnapshot_history_length S n2 hp hlt
  have hptr := pushSnapshot_historyPointer S n2
  simp only [mindMapReducer]
  have hmin : min (((pushSnapshot S n2).history.length : Int) - 1)
      (S.historyPointer + 1) = S.historyPointer + 1 := by
    rw [hlen]
    omega
  rw [hmin]
  have hread : jsIndex (pushSnapshot S n2).history (S.historyPointer + 1) =
      some n2 := by
    rw [jsIndex_nonneg _ _ (by omega), pushSnapshot_history S n2 hp]
    have htn : (S.historyPointer + 1).toNat = S.historyPointer.toNat + 1 := by omega
    rw [htn]
    rw [List.getElem?_append,
      if_neg (by rw [List.length_take]; omega)]
    rw [show S.historyPointer.toNat + 1 -
        (S.history.take (S.historyPointer.toNat + 1)).length = 0 from by
      rw [List.length_take]; omega]
    rfl
  rw [hread]
  rw [Option.some.injEq, MindMapState.mk.injEq]
  refine ⟨rfl, rfl, ?_⟩
  rw [hptr, hlen]
  omega

/-- Redo applied directly to a freshly pushed snapshot state is an exact
no-op: the pointer is already at the last index of the history. -/
theorem redo_pushSnapshot (S : MindMapState) (n2 : List MindMapNode)
    (hp : 0 ≤ S.historyPointer)
    (hlt : S.historyPointer.toNat < S.history.length) :
    mindMapReducer (pushSnapshot S n2) .redo = some (pushSnapshot S n2) := by
  have hlen := pushSnapshot_history_length S n2 hp hlt
  have hptr := pushSnapshot_historyPointer S n2
  simp only [mindMapReducer]
  have hmin : min (((pushSnapshot S n2).history.length : Int) - 1)
      ((pushSnapshot S n2).historyPointer + 1) =
      (pushSnapshot S n2).historyPointer := by
    rw [hptr]
    omega
  rw [hmin]
  have hread : jsIndex (pushSnapshot S n2).history
      (pushSnapshot S n2).historyPointer = some n2 := by
    rw [hptr, hlen]
    rw [jsIndex_nonneg _ _ (by omega), pushSnapshot_history S n2 hp]
    have htn : (((S.historyPointer.toNat + 2 : Nat) : Int) - 1).toNat =
        S.historyPointer.toNat + 1 := by omega
    rw [htn]
    rw [List.getElem?_append,
      if_neg (by rw [List.length_take]; omega)]
    rw [show S.historyPointer.toNat + 1 -
        (S.history.take (S.historyPointer.toNat + 1)).length = 0 from by
      rw [List.length_take]; omega]
    rfl
  rw [hread]
  rw [Option.some.injEq, MindMapState.mk.injEq]
  exact ⟨rfl, rfl, rfl⟩

/-! The Export-after-Import composite equals the round-trip transform
described in the specification (title and questions kept, pros and cons
kept exactly when both are present, subtopics normalized to a present
list). -/

mutual

theorem roundTrip_node (fresh : Nat → String) (x : AIMapNode)
    (pid : Option String) (lvl ctr : Nat) :
    convertMindMapNodeToAIMapNode
      (convertAIMapNodeToMindMapNode fresh x pid lvl ctr).1 =
      roundTripSpecNode x := by
  match x with
  | .mk title subs pros cons questions =>
    have hsub := roundTrip_subs fresh subs (some (fresh ctr)) (lvl + 1) (ctr + 1)
    simp only [convertAIMapNodeToMindMapNode, convertMindMapNodeToAIMapNode,
      roundTripSpecNode, hsub]
    cases pros <;> cases cons <;> cases questions <;>
      simp [NodeMetadata.empty]

theorem roundTrip_subs (fresh : Nat → String) (subs : Option (List AIMapNode))
    (pid : Option String) (lvl ctr : Nat) :
    convertMindMapList (convertAIMapSubtopics fresh subs pid lvl ctr).1 =
      roundTripSpecSubs subs := by
  match subs with
  | none => rfl
  | some l =>
    exact roundTrip_list fresh l pid lvl ctr

theorem roundTrip_list (fresh : Nat → String) (l : List AIMapNode)
    (pid : Option String) (lvl ctr : Nat) :
    convertMindMapList (convertAIMapList fresh l pid lvl ctr).1 =
      roundTripSpecList l := by
  match l with
  | [] => rfl
  | x :: rest =>
    have hx := roundTrip_node fresh x pid lvl ctr
    have hrest := roundTrip_list fresh rest pid lvl
      (convertAIMapNodeToMindMapNode fresh x pid lvl ctr).2
    simp only [convertAIMapList, convertMindMapList, roundTripSpecList,
      hx, hrest]

end

theorem strip_type (n : MindMapNode) : n.strip.type = n.type := by
  cases n
  rfl

/-! Imported trees obey the depth-to-type rule at every level. -/

mutual

theorem typesFollowDepth_convert_node (fresh : Nat → String) (x : AIMapNode)
    (pid : Option String) (lvl ctr : Nat) :
    typesFollowDepthNode (convertAIMapNodeToMindMapNode fresh x pid lvl ctr).1
      lvl = true := by
  match x with
  | .mk title subs pros cons questions =>
    have hsub := typesFollowDepth_convert_subs fresh subs (some (fresh ctr))
      (lvl + 1) (ctr + 1)
    simp only [convertAIMapNodeToMindMapNode, typesFollowDepthNode, hsub]
    simp

theorem typesFollowDepth_convert_subs (fresh : Nat → String)
    (subs : Option (List AIMapNode)) (pid : Option String) (lvl ctr : Nat) :
    typesFollowDepthForest (convertAIMapSubtopics fresh subs pid lvl ctr).1
      lvl = true := by
  match subs with
  | none => rfl
  | some l => exact typesFollowDepth_convert_list fresh l pid lvl ctr

theorem typesFollowDepth_convert_list (fresh : Nat → String)
    (l : List AIMapNode) (pid : Option String) (lvl ctr : Nat) :
    typesFollowDepthForest (convertAIMapList fresh l pid lvl ctr).1 lvl = true := by
  match l with
  | [] => rfl
  | x :: rest =>
    have hx := typesFollowDepth_convert_node fresh x pid lvl ctr
    have hrest := typesFollowDepth_convert_list fresh rest pid lvl
      (convertAIMapNodeToMindMapNode fresh x pid lvl ctr).2
    simp only [convertAIMapList, typesFollowDepthForest, hx, hrest]
    simp

end

/-! A mutation that touches neither id, nor type, nor children leaves the
(id, type) projection of the whole forest unchanged: node types are never
recomputed by the text, expand and metadata update actions. -/

mutual

theorem forestIdTypes_update (F : List MindMapNode) (tid : String)
    (f : MindMapNode → MindMapNode)
    (hf : ∀ m, (f m).id = m.id ∧ (f m).type = m.type ∧
      (f m).children = m.children) :
    forestIdTypes (updateNodeRecursive F tid f) = forestIdTypes F := by
  match F with
  | [] => rfl
  | n :: rest =>
    have hn := nodeIdTypes_update n tid f hf
    have hrest := forestIdTypes_update rest tid f hf
    simp only [updateNodeRecursive, forestIdTypes, flattenForest_cons,
      List.map_append] at *
    rw [hn, hrest]

theorem nodeIdTypes_update (n : MindMapNode) (tid : String)
    (f : MindMapNode → MindMapNode)
    (hf : ∀ m, (f m).id = m.id ∧ (f m).type = m.type ∧
      (f m).children = m.children) :
    (flattenNode (updateOneNode n tid f)).map (fun m => (m.id, m.type)) =
      (flattenNode n).map (fun m => (m.id, m.type)) := by
  match n with
  | .mk i t c p e ty tg st m =>
    simp only [updateOneNode]
    by_cases hi : i = tid
    · rw [if_pos hi]
      obtain ⟨hid, hty, hch⟩ := hf (MindMapNode.mk i t c p e ty tg st m)
      rw [flattenNode_eq, flattenNode_eq, hch]
      simp only [List.map_cons]
      rw [strip_id, strip_id, strip_type, strip_type, hid, hty]
    · rw [if_neg hi]
      have hc := forestIdTypes_update c tid f hf
      simp only [forestIdTypes] at hc
      rw [flattenNode_eq, flattenNode_eq]
      simp only [List.map_cons, MindMapNode.children, MindMapNode.strip,
        MindMapNode.withChildren]
      rw [hc]

end

/-! The three reducer mutators touch neither id, nor type, nor children. -/

theorem setNodeText_preserves (t : String) (m : MindMapNode) :
    (setNodeText t m).id = m.id ∧ (setNodeText t m).type = m.type ∧
      (setNodeText t m).children = m.children := by
  cases m
  exact ⟨rfl, rfl, rfl⟩

theorem toggleNodeExpanded_preserves (m : MindMapNode) :
    (toggleNodeExpanded m).id = m.id ∧ (toggleNodeExpanded m).type = m.type ∧
      (toggleNodeExpanded m).children = m.children := by
  cases m
  exact ⟨rfl, rfl, rfl⟩

theorem applyMetadataPatch_preserves (md : NodeMetadata)
    (st : Option NodeStatus) (m : MindMapNode) :
    (applyMetadataPatch md st m).id = m.id ∧
      (applyMetadataPatch md st m).type = m.type ∧
      (applyMetadataPatch md st m).children = m.children := by
  cases m
  exact ⟨rfl, rfl, rfl⟩

/-- Every mutating action is a snapshot push of some new forest. -/
theorem mindMapReducer_mutating (S : MindMapState) (a : MindMapAction)
    (hm : a.isMutating = true) :
    ∃ n2, mindMapReducer S a = some (pushSnapshot S n2) := by
  cases a with
  | setNodes payload => exact ⟨payload, rfl⟩
  | addNode parentId newNode =>
    cases parentId with
    | none => exact ⟨S.nodes ++ [newNode], rfl⟩
    | some pid => exact ⟨(addChildInForest S.nodes pid newNode).1, rfl⟩
  | updateNodeText nodeId newText =>
    exact ⟨updateNodeRecursive S.nodes nodeId (setNodeText newText), rfl⟩
  | deleteNode nodeId => exact ⟨deleteNodeRecursive S.nodes nodeId, rfl⟩
  | toggleExpand nodeId =>
    exact ⟨updateNodeRecursive S.nodes nodeId toggleNodeExpanded, rfl⟩
  | updateNodeMetadata nodeId md st =>
    exact ⟨updateNodeRecursive S.nodes nodeId (applyMetadataPatch md st), rfl⟩
  | undo => exact absurd hm (by simp [MindMapAction.isMutating])
  | redo => exact absurd hm (by simp [MindMapAction.isMutating])

/-! Claim theorems. -/

/-- C3: for every store state whose history read at the pointer yields the
current forest (the well-formedness invariant of every reachable state
with at least one snapshot), applying any single mutating action and then
Undo yields a current forest exactly equal to the original forest, and a
Redo right after that Undo yields a current forest exactly equal to the
forest the action produced. -/
theorem undo_redo_roundtrip_after_mutation (S : MindMapState)
    (a : MindMapAction) (hm : a.isMutating = true)
    (hwf : jsIndex S.history S.historyPointer = some S.nodes) :
    ((mindMapReducer S a).bind fun s1 => mindMapReducer s1 .undo).map
        MindMapState.nodes = some S.nodes ∧
    (((mindMapReducer S a).bind fun s1 => mindMapReducer s1 .undo).bind
        fun s2 => mindMapReducer s2 .redo).map MindMapState.nodes =
      (mindMapReducer S a).map MindMapState.nodes := by
  obtain ⟨n2, hstep⟩ := mindMapReducer_mutating S a hm
  have hu := undo_pushSnapshot S n2 hwf
  have hr := redo_after_undo_pushSnapshot S n2 hwf
  rw [hstep]
  simp [hu, hr]

/-- Witness for C3 at a concrete state and a concrete UpdateText action. -/
theorem undo_redo_roundtrip_after_mutation_witness :
    ((mindMapReducer sampleState (.updateNodeText "a" "A2")).bind
        fun s1 => mindMapReducer s1 .undo).map MindMapState.nodes =
      some sampleState.nodes ∧
    (((mindMapReducer sampleState (.updateNodeText "a" "A2")).bind
        fun s1 => mindMapReducer s1 .undo).bind
        fun s2 => mindMapReducer s2 .redo).map MindMapState.nodes =
      (mindMapReducer sampleState (.updateNodeText "a" "A2")).map
        MindMapState.nodes :=
  undo_redo_roundtrip_after_mutation sampleState (.updateNodeText "a" "A2")
    rfl rfl

/-- C4: from any state whose pointer sits strictly below the last history
index (as after one or more Undo steps), every mutating action truncates
the history to the entries up to and including the pointer, appends the
new snapshot, and points at the last index; Redo afterwards is an exact
no-op, so the previously redoable snapshots are gone. -/
theorem mutation_after_undo_truncates (S : MindMapState) (a : MindMapAction)
    (hm : a.isMutating = true) (hp : 0 ≤ S.historyPointer)
    (hlt : S.historyPointer < (S.history.length : Int) - 1) :
    (mindMapReducer S a).isSome = true ∧
    ∀ S1, mindMapReducer S a = some S1 →
      S1.history = S.history.take (S.historyPointer.toNat + 1) ++ [S1.nodes] ∧
      S1.historyPointer = (S1.history.length : Int) - 1 ∧
      mindMapReducer S1 .redo = some S1 := by
  obtain ⟨n2, hstep⟩ := mindMapReducer_mutating S a hm
  rw [hstep]
  refine ⟨rfl, ?_⟩
  intro S1 h1
  have hS1 : pushSnapshot S n2 = S1 := by injection h1
  subst hS1
  have hltN : S.historyPointer.toNat < S.history.length := by omega
  refine ⟨?_, pushSnapshot_historyPointer S n2,
    redo_pushSnapshot S n2 hp hltN⟩
  rw [pushSnapshot_nodes, pushSnapshot_history S n2 hp]

/-- Witness for C4 at a concrete rewound state and a concrete
ToggleExpand action, with the resulting state given explicitly. -/
theorem mutation_after_undo_truncates_witness :
    (mindMapReducer sampleRewoundState (.toggleExpand "a")).isSome = true ∧
    (pushSnapshot sampleRewoundState
        (updateNodeRecursive sampleRewoundState.nodes "a"
          toggleNodeExpanded)).history =
      sampleRewoundState.history.take
          (sampleRewoundState.historyPointer.toNat + 1) ++
        [(pushSnapshot sampleRewoundState
            (updateNodeRecursive sampleRewoundState.nodes "a"
              toggleNodeExpanded)).nodes] ∧
    (pushSnapshot sampleRewoundState
        (updateNodeRecursive sampleRewoundState.nodes "a"
          toggleNodeExpanded)).historyPointer =
      ((pushSnapshot sampleRewoundState
          (updateNodeRecursive sampleRewoundState.nodes "a"
            toggleNodeExpanded)).history.length : Int) - 1 ∧
    mindMapReducer
        (pushSnapshot sampleRewoundState
          (updateNodeRecursive sampleRewoundState.nodes "a"
            toggleNodeExpanded)) .redo =
      some (pushSnapshot sampleRewoundState
        (updateNodeRecursive sampleRewoundState.nodes "a"
          toggleNodeExpanded)) := by
  have h := mutation_after_undo_truncates sampleRewoundState
    (.toggleExpand "a") rfl (by decide) (by decide)
  exact ⟨h.1, h.2 _ rfl⟩

/-- C10: on any state with a non-empty history and a valid pointer, Undo
and Redo yield a state whose pointer is again a valid index and whose
current forest is the history entry at that pointer; on the initial state
(empty history, pointer -1) the clamped reads history[0] after Undo and
history[-1] after Redo are out of bounds, so neither yields a well-formed
state (the model returns none for the `undefined` forest). -/
theorem undo_redo_need_nonempty_history :
    (∀ S : MindMapState, 0 ≤ S.historyPointer →
      S.historyPointer < (S.history.length : Int) →
      (mindMapReducer S .undo).isSome = true ∧
      ∀ S2, mindMapReducer S .undo = some S2 →
        0 ≤ S2.historyPointer ∧
        S2.historyPointer < (S2.history.length : Int) ∧
        jsIndex S2.history S2.historyPointer = some S2.nodes) ∧
    (∀ S : MindMapState, 0 ≤ S.historyPointer →
      S.historyPointer < (S.history.length : Int) →
      (mindMapReducer S .redo).isSome = true ∧
      ∀ S2, mindMapReducer S .redo = some S2 →
        0 ≤ S2.historyPointer ∧
        S2.historyPointer < (S2.history.length : Int) ∧
        jsIndex S2.history S2.historyPointer = some S2.nodes) ∧
    mindMapReducer initialMindMapState .undo = none ∧
    mindMapReducer initialMindMapState .redo = none := by
  refine ⟨?_, ?_, rfl, rfl⟩
  · intro S hp hlt
    have hq0 : (0 : Int) ≤ max 0 (S.historyPointer - 1) := le_max_left _ _
    have hqlt : (max 0 (S.historyPointer - 1)).toNat < S.history.length := by
      omega
    have hread : jsIndex S.history (max 0 (S.historyPointer - 1)) =
        some (S.history[(max 0 (S.historyPointer - 1)).toNat]) := by
      rw [jsIndex_nonneg _ _ hq0]
      exact List.getElem?_eq_getElem hqlt
    simp only [mindMapReducer]
    rw [hread]
    refine ⟨rfl, ?_⟩
    intro S2 h2
    have h2b : some (MindMapState.mk
        (S.history[(max 0 (S.historyPointer - 1)).toNat]) S.history
        (max 0 (S.historyPointer - 1))) = some S2 := h2
    have hS2 := Option.some.inj h2b
    subst hS2
    refine ⟨hq0, by simp; omega, ?_⟩
    rw [jsIndex_nonneg _ _ hq0]
    exact List.getElem?_eq_getElem hqlt
  · intro S hp hlt
    have hq0 : (0 : Int) ≤
        min ((S.history.length : Int) - 1) (S.historyPointer + 1) := by
      omega
    have hqlt : (min ((S.history.length : Int) - 1)
        (S.historyPointer + 1)).toNat < S.history.length := by
      omega
    have hread : jsIndex S.history
        (min ((S.history.length : Int) - 1) (S.historyPointer + 1)) =
        some (S.history[(min ((S.history.length : Int) - 1)
          (S.historyPointer + 1)).toNat]) := by
      rw [jsIndex_nonneg _ _ hq0]
      exact List.getElem?_eq_getElem hqlt
    simp only [mindMapReducer]
    rw [hread]
    refine ⟨rfl, ?_⟩
    intro S2 h2
    have h2b : some (MindMapState.mk
        (S.history[(min ((S.history.length : Int) - 1)
          (S.historyPointer + 1)).toNat]) S.history
        (min ((S.history.length : Int) - 1) (S.historyPointer + 1))) =
        some S2 := h2
    have hS2 := Option.some.inj h2b
    subst hS2
    refine ⟨hq0, by simp, ?_⟩
    rw [jsIndex_nonneg _ _ hq0]
    exact List.getElem?_eq_getElem hqlt

/-- Witness for C10 at a concrete two-snapshot state (and the concrete
resulting state of its Undo, which at pointer 0 is the state itself). -/
theorem undo_redo_need_nonempty_history_witness :
    ((mindMapReducer sampleRewoundState .undo).isSome = true ∧
      (0 ≤ sampleRewoundState.historyPointer ∧
        sampleRewoundState.historyPointer <
          (sampleRewoundState.history.length : Int) ∧
        jsIndex sampleRewoundState.history
          sampleRewoundState.historyPointer =
          some sampleRewoundState.nodes)) ∧
    mindMapReducer initialMindMapState .undo = none := by
  have h := undo_redo_need_nonempty_history
  have h1 := h.1 sampleRewoundState (by decide) (by decide)
  exact ⟨⟨h1.1, h1.2 sampleRewoundState rfl⟩, h.2.2.1⟩

/-- C5: for every forest and every id not present in it, both the
recursive update (with any mutator) and the recursive delete return a
forest equal to the input: the lookup miss is a silent no-op. -/
theorem update_delete_missing_id_noop (F : List MindMapNode) (id : String)
    (f : MindMapNode → MindMapNode) (h : id ∉ forestIds F) :
    updateNodeRecursive F id f = F ∧ deleteNodeRecursive F id = F :=
  ⟨updateNodeRecursive_not_mem F id f h, deleteNodeRecursive_not_mem F id h⟩

/-- Witness for C5 on a concrete forest and a concrete absent id. -/
theorem update_delete_missing_id_noop_witness :
    updateNodeRecursive [sampleA] "zz" toggleNodeExpanded = [sampleA] ∧
    deleteNodeRecursive [sampleA] "zz" = [sampleA] :=
  update_delete_missing_id_noop [sampleA] "zz" toggleNodeExpanded (by decide)

/-- C6: for every forest with unique ids and every id present in it (found
as the subtree t), delete removes exactly the nodes of that subtree: the
preorder flattening of the result is the flattening of the input filtered
to the nodes outside the subtree, so every other node keeps its content
and the relative order of the remaining nodes is unchanged; in particular
the deleted id and the ids of all its descendants are absent. -/
theorem delete_removes_subtree (F : List MindMapNode) (id : String)
    (t : MindMapNode) (hnd : (forestIds F).Nodup)
    (hf : findNodeById F id = some t) :
    flattenForest (deleteNodeRecursive F id) =
      (flattenForest F).filter (fun m => decide (m.id ∉ nodeIds t)) ∧
    ∀ d ∈ nodeIds t, d ∉ forestIds (deleteNodeRecursive F id) := by
  have hmain := deleteNodeRecursive_flatten F id t hnd hf
  refine ⟨hmain, ?_⟩
  intro d hd hmem
  unfold forestIds at hmem
  rw [hmain] at hmem
  rw [List.mem_map] at hmem
  obtain ⟨m, hm, hid⟩ := hmem
  rw [List.mem_filter] at hm
  have hnot := hm.2
  simp only [decide_eq_true_iff] at hnot
  exact hnot (hid ▸ hd)

/-- Witness for C6: deleting the nested node b from the concrete forest
with root a above child b. -/
theorem delete_removes_subtree_witness :
    flattenForest (deleteNodeRecursive [sampleA] "b") =
      (flattenForest [sampleA]).filter
        (fun m => decide (m.id ∉ nodeIds sampleB)) ∧
    "b" ∉ forestIds (deleteNodeRecursive [sampleA] "b") := by
  have h := delete_removes_subtree [sampleA] "b" sampleB (by decide) rfl
  exact ⟨h.1, h.2 "b" (by decide)⟩

/-- C7: AddNode with no parent id appends the new node after the existing
roots, leaving them unchanged; with a parent id it applies exactly the
append-child-and-force-expand mutation to the node with that id via the
recursive update (given unique ids), so siblings and all other nodes are
untouched; with a parent id not present the forest is unchanged; and in
every case (as with SetForest) the result is a snapshot push of the new
forest onto the truncated history. -/
theorem addNode_cases (S : MindMapState) (x : MindMapNode) :
    mindMapReducer S (.addNode none x) =
      some (pushSnapshot S (S.nodes ++ [x])) ∧
    (∀ pid, (forestIds S.nodes).Nodup →
      mindMapReducer S (.addNode (some pid) x) =
        some (pushSnapshot S
          (updateNodeRecursive S.nodes pid (appendChildExpand x)))) ∧
    (∀ pid, pid ∉ forestIds S.nodes →
      mindMapReducer S (.addNode (some pid) x) =
        some (pushSnapshot S S.nodes)) ∧
    (∀ F2, mindMapReducer S (.setNodes F2) = some (pushSnapshot S F2)) := by
  refine ⟨rfl, ?_, ?_, fun F2 => rfl⟩
  · intro pid hnd
    simp only [mindMapReducer]
    rw [addChildInForest_eq_update S.nodes pid x hnd]
  · intro pid hnotin
    simp only [mindMapReducer]
    rw [addChildInForest_not_mem S.nodes pid x hnotin]

/-- Witness for C7 on the concrete one-root state: append a new root,
add under the existing root a, and add under a missing parent. -/
theorem addNode_cases_witness :
    mindMapReducer sampleState (.addNode none (handleAddChildNode "c" "a")) =
      some (pushSnapshot sampleState
        (sampleState.nodes ++ [handleAddChildNode "c" "a"])) ∧
    mindMapReducer sampleState
        (.addNode (some "a") (handleAddChildNode "c" "a")) =
      some (pushSnapshot sampleState
        (updateNodeRecursive sampleState.nodes "a"
          (appendChildExpand (handleAddChildNode "c" "a")))) ∧
    mindMapReducer sampleState
        (.addNode (some "zz") (handleAddChildNode "c" "a")) =
      some (pushSnapshot sampleState sampleState.nodes) := by
  have h := addNode_cases sampleState (handleAddChildNode "c" "a")
  exact ⟨h.1, h.2.1 "a" (by decide), h.2.2.1 "zz" (by decide)⟩

/-- C1 counterexample: an AI node carrying pros but no cons loses its pros
content over Import followed by Export, because Import folds pros and cons
into metadata only when both are present. -/
theorem roundtrip_pros_counterexample :
    (AIMapNode.mk "t" none (some ["p"]) none none).pros = some ["p"] ∧
    (convertMindMapNodeToAIMapNode
      (convertAIMapNodeToMindMapNode (fun _ => "n")
        (AIMapNode.mk "t" none (some ["p"]) none none) none 0 0).1).pros =
      none ∧
    (none : Option (List String)) ≠ some ["p"] :=
  ⟨rfl, rfl, by simp⟩

/-- C1 (amended): Export after Import, at every nesting depth, keeps every
node title and questions content, keeps pros and cons exactly when both
are present on the node (a node with only one of them loses both), and
normalizes an absent subtopics list to an empty one — the round trip
equals the `roundTripSpecNode` transform. Ids, isExpanded and tags need
not survive and do not appear in the AI shape. -/
theorem roundtrip_preserves_content_amended (fresh : Nat → String)
    (x : AIMapNode) (pid : Option String) (lvl ctr : Nat) :
    convertMindMapNodeToAIMapNode
      (convertAIMapNodeToMindMapNode fresh x pid lvl ctr).1 =
      roundTripSpecNode x :=
  roundTrip_node fresh x pid lvl ctr

/-- C2 counterexample: adding a child under the root a places the new node
at depth 1, where the depth rule dictates SUB_TOPIC, but the add-child
handler assigns the constant DETAIL. -/
theorem type_from_depth_counterexample :
    (handleAddChild sampleState "c" "a").map
        (fun st => depthInForest st.nodes "c") = some (some 1) ∧
    (handleAddChild sampleState "c" "a").map
        (fun st => (findNodeById st.nodes "c").map MindMapNode.type) =
      some (some MindMapNodeType.DETAIL) ∧
    MindMapNodeType.DETAIL ≠ MindMapNodeType.SUB_TOPIC :=
  ⟨rfl, rfl, by decide⟩

/-- C2 (amended): types are assigned once at creation and never
recomputed, but the creation rule differs by path: the import converter
assigns the type from the depth (0 MAIN_TOPIC, 1 SUB_TOPIC, deeper
DETAIL) throughout the imported tree, while the user add-child action
always assigns DETAIL regardless of depth; the text, expand and metadata
update mutations preserve the (id, type) assignment of every node. -/
theorem type_assignment_amended :
    (∀ (fresh : Nat → String) (x : AIMapNode) (pid : Option String)
        (lvl ctr : Nat),
      typesFollowDepthNode
        (convertAIMapNodeToMindMapNode fresh x pid lvl ctr).1 lvl = true) ∧
    (∀ newId parentId, (handleAddChildNode newId parentId).type =
      MindMapNodeType.DETAIL) ∧
    (∀ F id t2, forestIdTypes (updateNodeRecursive F id (setNodeText t2)) =
      forestIdTypes F) ∧
    (∀ F id, forestIdTypes (updateNodeRecursive F id toggleNodeExpanded) =
      forestIdTypes F) ∧
    (∀ F id md st, forestIdTypes
        (updateNodeRecursive F id (applyMetadataPatch md st)) =
      forestIdTypes F) := by
  refine ⟨typesFollowDepth_convert_node, fun _ _ => rfl, ?_, ?_, ?_⟩
  · intro F id t2
    exact forestIdTypes_update F id _ (setNodeText_preserves t2)
  · intro F id
    exact forestIdTypes_update F id _ toggleNodeExpanded_preserves
  · intro F id md st
    exact forestIdTypes_update F id _ (applyMetadataPatch_preserves md st)

/-- C8 counterexample: with an unparseable response, the refine and merge
wrappers return the failure result after a single collaborator call — no
second, corrective-reformat call is made, contradicting the claim that
every forest-producing wrapper attempts exactly one bounded retry. -/
theorem retry_counterexample :
    refineMindMapStructure (fun _ => none) (some "x") = (none, 1) ∧
    mergeDuplicateIdeas (fun _ => none) (some "x") = (none, 1) ∧
    (1 : Nat) ≠ 2 :=
  ⟨rfl, rfl, by decide⟩

/-- C8 (amended): only the generate wrapper attempts the single bounded
reformatting retry when its response fails to parse, and a missing or
unparseable second response is an ordinary failure (null after two
calls); the refine and merge wrappers make no retry and treat a parse
failure immediately as an ordinary failure after one call. -/
theorem retry_amended (parse : String → Option AIMindMapOutput)
    (t t2 : String) (h : parse t = none) :
    generateMindMapStructure parse (some t) (some t2) = (parse t2, 2) ∧
    generateMindMapStructure parse (some t) none = (none, 2) ∧
    refineMindMapStructure parse (some t) = (none, 1) ∧
    mergeDuplicateIdeas parse (some t) = (none, 1) := by
  simp [generateMindMapStructure, refineMindMapStructure,
    mergeDuplicateIdeas, h]

/-- Witness for C8 with the concrete always-failing parse. -/
theorem retry_amended_witness :
    generateMindMapStructure (fun _ => none) (some "x") (some "y") =
      (none, 2) ∧
    generateMindMapStructure (fun _ => none) (some "x") none = (none, 2) ∧
    refineMindMapStructure (fun _ => none) (some "x") = (none, 1) ∧
    mergeDuplicateIdeas (fun _ => none) (some "x") = (none, 1) :=
  retry_amended (fun _ => none) "x" "y" rfl

/-- C9 counterexample: with the child b selected, deleting its ancestor a
destroys b (it is no longer findable in the tree) yet the selection still
references b — the cascade case does not clear the selection. -/
theorem delete_selection_counterexample :
    (handleDeleteNode sampleSelectedB "a").map AppState.selectedNode =
      some (some sampleB) ∧
    (handleDeleteNode sampleSelectedB "a").map
        (fun s2 => findNodeById s2.mindMap.nodes "b") = some none ∧
    some sampleB ≠ (none : Option MindMapNode) :=
  ⟨rfl, rfl, by simp⟩

/-- C9 (amended): the delete handler clears the selection exactly when the
deleted id equals the own id of the selected node; when the ids differ the
selection is left as it was, even if the selected node is a descendant
destroyed by the cascade. -/
theorem delete_selection_amended (st : AppState) (nodeId : String)
    (s : MindMapNode) (hsel : st.selectedNode = some s) :
    (s.id = nodeId →
      (handleDeleteNode st nodeId).map AppState.selectedNode = some none) ∧
    (s.id ≠ nodeId →
      (handleDeleteNode st nodeId).map AppState.selectedNode =
        some (some s)) := by
  unfold handleDeleteNode
  simp only [mindMapReducer, Option.map_map, Option.map_some]
  rw [hsel]
  constructor
  · intro he
    simp [AppState.selectedNode, he]
  · intro hne
    simp [AppState.selectedNode, hne, hsel]

/-- Witness for C9 (amended) on the concrete state with the root a
selected and then deleted. -/
theorem delete_selection_amended_witness :
    (handleDeleteNode sampleSelectedA "a").map AppState.selectedNode =
      some none :=
  (delete_selection_amended sampleSelectedA "a" sampleA rfl).1 rfl
